import Mathlib

/-!
Shallow embedding of the operator-dispatch core of diffusion-rs
(src/diffusion_rs_common/src/nn/ops.rs and
src/diffusion_rs_backend/src/cublaslt/api.rs), together with theorems
settling the specification claims about it.

Numeric kernels are modelled over an arbitrary linear ordered field with an
abstract exponential function `e`, so every statement proved here holds in
particular for real arithmetic (the exact-arithmetic reading of the spec);
floating-point rounding is outside the embedding.
-/

deriving instance DecidableEq for Except

/-- Element dtypes of the tensor core (the float set plus the other storage
variants that the `match storage` arms reject). -/
inductive DType where
  | bf16
  | f16
  | f32
  | f64
  | f8e4m3
  | u8
  | u32
  | i64
deriving DecidableEq, Repr

/-- The dtypes handled by the float-generic CPU kernels
(`CpuStorage::BF16 | F16 | F32 | F64` arms). -/
def DType.isFloat : DType → Bool
  | .bf16 => true
  | .f16 => true
  | .f32 => true
  | .f64 => true
  | _ => false

/-- Error categories of the spec's error taxonomy (section 7); every
`bail!` site of the source is mapped to the category the spec assigns to it.
`indexError` stands for a Rust panic on an out-of-bounds index or a
zero chunk size, which a valid tensor never triggers. -/
inductive Err where
  | shapeMismatch
  | precondition
  | unsupportedDType
  | backendUnsupported
  | indexError
deriving DecidableEq, Repr

/-- Layout of a tensor: start offset, per-dimension stride, shape
(spec section 3, consumed from the external tensor machinery). -/
structure Layout where
  dims : List Nat
  stride : List Nat
  startOffset : Nat
deriving DecidableEq, Repr

/-- Row-major strides of a shape: the stride of a dimension is the product of
the trailing dimensions after it. -/
def rowMajorStride : List Nat → List Nat
  | [] => []
  | _ :: ds => ds.prod :: rowMajorStride ds

def Layout.elemCount (l : Layout) : Nat := l.dims.prod

def Layout.rank (l : Layout) : Nat := l.dims.length

/-- Modelled from the spec: a layout is contiguous iff its strides match the
row-major product of trailing dimensions (spec section 3, Layout invariant). -/
def Layout.isContiguous (l : Layout) : Bool := l.stride == rowMajorStride l.dims

/-- `Layout::contiguous_offsets`: for a contiguous layout, the half-open range
of buffer indices `[start, start + elem_count)` holding the data. -/
def Layout.contiguousOffsets (l : Layout) : Option (Nat × Nat) :=
  if l.isContiguous then some (l.startOffset, l.startOffset + l.elemCount) else none

/-- The contiguous layout of a given shape, with offset 0. -/
def Layout.ofDims (dims : List Nat) : Layout :=
  ⟨dims, rowMajorStride dims, 0⟩

/-- CPU storage: a dtype tag plus the flat element buffer; the element type of
the Rust buffer (f16/bf16/f32/f64) is abstracted by the field `α`. -/
structure CpuStorage (α : Type) where
  dtype : DType
  data : List α
deriving DecidableEq, Repr

section Kernels

variable {α : Type} [LinearOrderedField α]

/-- `T::vec_reduce_max` seeded in a chunk: the CPU kernel seeds the maximum at
negative infinity, which on a nonempty chunk yields the chunk maximum; the
seed is the first element here because chunks are nonempty. -/
def chunkMax (a : α) (l : List α) : α := l.foldl max a

/-- `T::vec_reduce_sum`: sum of a buffer, seeded at zero. -/
def chunkSum (l : List α) : α := l.foldl (fun x y => x + y) 0

/-- One row of the fused softmax CPU kernel (`SoftmaxLastDim::cpu_fwd` body of
the `par_chunks` closure): compute the chunk max, subtract and apply `e`,
sum, divide -- one pass, no intermediate tensor.  The `[]` arm is unreachable
because `par_chunks` never yields an empty chunk. -/
def softmax_chunk (e : α → α) : List α → List α
  | [] => []
  | a :: l =>
    let m := chunkMax a l
    let d := (a :: l).map fun s => e (s - m)
    let sumExp := chunkSum d
    d.map fun x => x / sumExp

/-- Fuel-indexed splitting of a buffer into consecutive chunks of size `k`
(`slice::par_chunks`); the fuel is the buffer length at the top call. -/
def chunksGo (k : Nat) : Nat → List α → List (List α)
  | 0, _ => []
  | _ + 1, [] => []
  | fuel + 1, a :: l => (a :: l).take k :: chunksGo k fuel ((a :: l).drop k)

/-- `par_chunks k`: consecutive chunks of size `k`, the last one possibly
shorter. -/
def chunks (k : Nat) (l : List α) : List (List α) := chunksGo k l.length l

/-- `SoftmaxLastDim` as `CustomOp1::cpu_fwd` (ops.rs lines 419-457): dtype
dispatch, contiguity gate, then the fused one-pass softmax on each row of
length `dims[last]`, written into a fresh buffer of the same shape.
`e` abstracts the element type's `exp`. -/
def softmax_last_dim_cpu_fwd (e : α → α) (s : CpuStorage α) (l : Layout) :
    Except Err (CpuStorage α × List Nat) :=
  if s.dtype.isFloat = false then .error .unsupportedDType
  else
    match l.contiguousOffsets with
    | none => .error .precondition
    | some (o1, o2) =>
      if o2 > s.data.length then .error .indexError
      else
        match l.dims.getLast? with
        | none => .error .indexError
        | some dimM1 =>
          if dimM1 = 0 then .error .indexError
          else
            let src := (s.data.drop o1).take (o2 - o1)
            let dst := ((chunks dimM1 src).map (softmax_chunk e)).flatten
            .ok (⟨s.dtype, dst⟩, l.dims)

/-- `SoftmaxLastDim` as `InplaceOp1::cpu_fwd` (ops.rs lines 296-329): same
gates, but the rows inside the contiguous offset range `[o1, o2)` are
overwritten in place; the rest of the buffer is untouched. -/
def inplace_softmax_last_dim_cpu_fwd (e : α → α) (s : CpuStorage α) (l : Layout) :
    Except Err (CpuStorage α) :=
  if s.dtype.isFloat = false then .error .unsupportedDType
  else
    match l.contiguousOffsets with
    | none => .error .precondition
    | some (o1, o2) =>
      if o2 > s.data.length then .error .indexError
      else
        match l.dims.getLast? with
        | none => .error .indexError
        | some dimM1 =>
          if dimM1 = 0 then .error .indexError
          else
            let mid := (s.data.drop o1).take (o2 - o1)
            let processed := ((chunks dimM1 mid).map (softmax_chunk e)).flatten
            .ok ⟨s.dtype, s.data.take o1 ++ processed ++ s.data.drop o2⟩

/-- Validation gate of `SoftmaxLastDim::cuda_fwd` (ops.rs lines 459-511):
dtype dispatch, then the `contiguous_offsets` gate before any kernel launch. -/
def softmax_last_dim_cuda_guard (dt : DType) (l : Layout) : Except Err Unit :=
  if dt.isFloat = false then .error .unsupportedDType
  else
    match l.contiguousOffsets with
    | none => .error .precondition
    | some _ =>
      match l.dims.getLast? with
      | none => .error .indexError
      | some _ => .ok ()

/-- Validation gate of `SoftmaxLastDim::metal_fwd` (ops.rs lines 513-554, and
identically 377-411 for the in-place form): dtype must be f32/f16/bf16, the
layout contiguous with last stride 1, before the kernel call. -/
def softmax_last_dim_metal_guard (dt : DType) (l : Layout) : Except Err Unit :=
  if ¬(dt = .f32 ∨ dt = .f16 ∨ dt = .bf16) then .error .unsupportedDType
  else
    match l.stride.getLast? with
    | none => .error .indexError
    | some sLast =>
      if ¬(l.isContiguous = true ∧ sLast = 1) then .error .precondition
      else
        match l.dims.getLast? with
        | none => .error .indexError
        | some _ => .ok ()

end Kernels

section GenericSoftmax

variable {α : Type} [LinearOrderedField α]

/-- Modelled from the spec: `max_keepdim` of the external tensor machinery on
the last dimension, acting on the row decomposition of the tensor
(`softmax(x, dim) = exp(x - max(x,dim)) / sum(exp(x - max(x,dim)), dim)`,
spec section 4.1).  Each row is reduced to its maximum, kept as a length-1
row.  The `[]` arm is unreachable for rows of a positive last dimension. -/
def max_keepdim_last (rows : List (List α)) : List (List α) :=
  rows.map fun r =>
    match r with
    | [] => []
    | a :: l => [chunkMax a l]

/-- Modelled from the spec: `broadcast_sub` against a keepdim (length-1 rows)
tensor, on the row decomposition. -/
def broadcast_sub_last (xs ms : List (List α)) : List (List α) :=
  List.zipWith (fun r m => r.map fun s => s - m.headD 0) xs ms

/-- Modelled from the spec: elementwise `exp` (abstracted by `e`). -/
def exp_last (e : α → α) (rows : List (List α)) : List (List α) :=
  rows.map (List.map e)

/-- Modelled from the spec: `sum_keepdim` on the last dimension, on the row
decomposition. -/
def sum_keepdim_last (rows : List (List α)) : List (List α) :=
  rows.map fun r => [chunkSum r]

/-- Modelled from the spec: `broadcast_div` against a keepdim tensor, on the
row decomposition. -/
def broadcast_div_last (xs ds : List (List α)) : List (List α) :=
  List.zipWith (fun r d => r.map fun s => s / d.headD 1) xs ds

/-- The generic `softmax` composition of ops.rs lines 22-29 specialised to the
last dimension, on the row decomposition: max, broadcast-subtract,
exponentiate, sum, broadcast-divide. -/
def softmax_generic_last (e : α → α) (rows : List (List α)) : List (List α) :=
  let m := max_keepdim_last rows
  let diff := broadcast_sub_last rows m
  let num := exp_last e diff
  let den := sum_keepdim_last num
  broadcast_div_last num den

end GenericSoftmax

section PublicOps

variable {α : Type} [LinearOrderedField α]

/-- `dropout(xs, drop_p)` (ops.rs lines 248-262): bail unless
`drop_p ∈ [0, 1)`, then build the mask `(rand >= drop_p) * 1/(1 - drop_p)`
and multiply the input by it elementwise.  `rand` stands for the buffer drawn
by `Tensor::rand(0., 1., ..)`, one value per element. -/
def dropout (xs : List α) (drop_p : α) (rand : List α) : Except Err (List α) :=
  if ¬(0 ≤ drop_p ∧ drop_p < 1) then .error .precondition
  else
    let scale := 1 / (1 - drop_p)
    let mask := rand.map fun r => (if drop_p ≤ r then (1 : α) else 0) * scale
    .ok (List.zipWith (fun x m => x * m) xs mask)

/-- `rms_norm(xs, alpha, eps)` front end (ops.rs lines 955-966): read the last
dimension of `xs` (`dim(D::Minus1)`, failing on rank 0) and `alpha.dims1()`
(failing unless `alpha` has rank 1), bail on a length mismatch, and only then
hand off to the fused kernel.  The kernel invocation `apply_op2_no_bwd` is
abstracted as the argument `kernel`, so the theorems can state that a
mismatching call never reaches it. -/
def rms_norm {β : Type} (xsDims alphaDims : List Nat) (kernel : Except Err β) :
    Except Err β :=
  match xsDims.getLast? with
  | none => .error .shapeMismatch
  | some hiddenXs =>
    match alphaDims with
    | [hiddenAlpha] =>
      if hiddenXs ≠ hiddenAlpha then .error .shapeMismatch else kernel
    | _ => .error .shapeMismatch

end PublicOps

section AttnSoftmax

/-- `dims[i]` via the external `Layout::dim(i)` accessor, failing on an
out-of-range index. -/
def listDim (dims : List Nat) (i : Nat) : Except Err Nat :=
  match dims[i]? with
  | some d => .ok d
  | none => .error .shapeMismatch

/-- `dims[rank - j]` via `Layout::dim(D::Minus(j))`, failing when the rank is
below `j`. -/
def listDimMinus (dims : List Nat) (j : Nat) : Except Err Nat :=
  if 1 ≤ j ∧ j ≤ dims.length then
    match dims[dims.length - j]? with
    | some d => .ok d
    | none => .error .shapeMismatch
  else .error .shapeMismatch

/-- Modelled from the spec: the broadcast of two shapes by the external tensor
machinery ("decomposes into broadcast-add", spec section 4.1): align from the
trailing dimension; a missing dimension counts as 1; dimensions must be equal
or one of them 1, and the larger is kept.  Computed on reversed shapes. -/
def broadcastRev : List Nat → List Nat → Option (List Nat)
  | [], r => some r
  | l, [] => some l
  | a :: l, b :: r =>
    if a = b then (broadcastRev l r).map (a :: ·)
    else if a = 1 then (broadcastRev l r).map (b :: ·)
    else if b = 1 then (broadcastRev l r).map (a :: ·)
    else none

/-- Modelled from the spec: broadcast shape of two shapes (see `broadcastRev`). -/
def broadcast_shape (lhs rhs : List Nat) : Option (List Nat) :=
  (broadcastRev lhs.reverse rhs.reverse).map List.reverse

/-- Last dimension of a shape (0 whenever the shape is empty; only used under
a rank hypothesis making that arm unreachable). -/
def lastDim (dims : List Nat) : Nat := dims.getLastD 0

/-- Second to last dimension of a shape (same convention as `lastDim`). -/
def sndLastDim (dims : List Nat) : Nat := dims.dropLast.getLastD 0

/-- `attn_softmax_last_dim(xs, mask, scale)` (ops.rs lines 732-738), at the
shape level (the claims it settles are about success and failure, not values).
On Metal it runs `AttnSoftmaxLastDim::metal_fwd` (lines 661-719): dtype gate,
contiguity gates, rank-4 / rank-2 checks, trailing-two-dimension match.
On every other backend it decomposes into
`softmax_last_dim(broadcast_add(xs, mask) * scale)`: the broadcast result is a
fresh contiguous tensor of the broadcast shape, so the fused softmax then only
needs a float dtype and a positive last dimension. -/
def attn_softmax_last_dim (isMetal : Bool) (xsL maskL : Layout) (dt : DType) :
    Except Err (List Nat) :=
  if isMetal then do
    if ¬(dt = .f32 ∨ dt = .f16 ∨ dt = .bf16) then throw .unsupportedDType
    if xsL.isContiguous = false then throw .precondition
    if maskL.isContiguous = false then throw .precondition
    if xsL.dims.length ≠ 4 then throw .shapeMismatch
    if maskL.dims.length ≠ 2 then throw .shapeMismatch
    let m1 ← listDimMinus maskL.dims 1
    let a1 ← listDimMinus xsL.dims 1
    let m2 ← listDimMinus maskL.dims 2
    let a2 ← listDimMinus xsL.dims 2
    if m1 ≠ a1 ∨ m2 ≠ a2 then throw .shapeMismatch
    return xsL.dims
  else do
    match broadcast_shape xsL.dims maskL.dims with
    | none => throw .shapeMismatch
    | some s => do
      if dt.isFloat = false then throw .unsupportedDType
      match s.getLast? with
      | none => throw .indexError
      | some d =>
        if d = 0 then throw .indexError
        else return s

end AttnSoftmax

section Sdpa

/-- The three Metal SDPA kernels the dispatcher can route to. -/
inductive SdpaRoute where
  | vector
  | vector2pass
  | full
deriving DecidableEq, Repr

/-- `Sdpa::metal_fwd` (ops.rs lines 1336-1523) at the shape/dispatch level:
all eligibility checks in source order, then the route taken and the output
shape `[q0, q1, q2, v3]`.  `q_head`/`k_head` are, as in the source, the LAST
dimensions of `q` and `k` (the head dimension, not the head count). -/
def sdpa_metal_fwd (qDims kDims vDims : List Nat) (qDt kDt vDt : DType) :
    Except Err (SdpaRoute × List Nat) := do
  let q0 ← listDim qDims 0
  let q1 ← listDim qDims 1
  let q2 ← listDim qDims 2
  let v3 ← listDim vDims 3
  let outDims := [q0, q1, q2, v3]
  let qLast ← listDimMinus qDims 1
  let kLast ← listDimMinus kDims 1
  if qLast ≠ kLast then throw .shapeMismatch
  let vH ← listDimMinus vDims 3
  let kH ← listDimMinus kDims 3
  if vH ≠ kH then throw .shapeMismatch
  let qH ← listDimMinus qDims 3
  if kH = 0 then throw .indexError
  if qH % kH ≠ 0 then throw .precondition
  let kHead ← listDimMinus kDims 1
  let qHead ← listDimMinus qDims 1
  let qSeq ← listDim qDims 2
  let implSupports0 := qHead == kHead
  let supportedHeadDim :=
    qHead == 32 || qHead == 64 || qHead == 96 || qHead == 128 || qHead == 256
  let supportsFull := decide (2 ≤ qSeq) && supportedHeadDim && (qHead == kHead)
  let supportsVector := (qSeq == 1) && supportedHeadDim
  let implSupports := implSupports0 && (supportsFull || supportsVector)
  if supportedHeadDim = false then throw .precondition
  if implSupports = false then throw .precondition
  if ¬(qDt = kDt ∧ qDt = vDt) then throw .unsupportedDType
  if ¬(qDt = .bf16 ∨ qDt = .f16 ∨ qDt = .f32) then throw .unsupportedDType
  if supportsVector then do
    let k2 ← listDim kDims 2
    if 1024 ≤ k2 then return (.vector2pass, outDims) else return (.vector, outDims)
  else if supportsFull then do
    let k2 ← listDim kDims 2
    if q2 ≠ k2 then throw .shapeMismatch
    return (.full, outDims)
  else throw .precondition

end Sdpa

section BatchMatmul

/-- Relu/Gelu epilogue tag forwarded to the vendor GEMM call. -/
inductive Activation where
  | relu
  | gelu
deriving DecidableEq, Repr

/-- The `MatmulConfig` handed to the vendor batched-GEMM call
(api.rs lines 118-134). -/
structure MatmulConfig where
  transa : Bool
  transb : Bool
  m : Nat
  n : Nat
  k : Nat
  alpha : ℚ
  lda : Nat
  ldb : Nat
  beta : ℚ
  ldc : Nat
  strideA : Nat
  strideB : Nat
  strideC : Nat
  batchSize : Nat
deriving DecidableEq, Repr

/-- The `CublasLTBatchMatmul` operator descriptor (api.rs lines 32-38); the
optional accumulator tensor `c` is carried as its layout (its buffer contents
stay on the device and never influence validation). -/
structure CublasLTBatchMatmul where
  act : Option Activation
  c : Option Layout
  alpha : Option ℚ
  beta : Option ℚ
deriving DecidableEq, Repr

/-- What a successful `fwd_f16`/`fwd_bf16`/`fwd_f32` call hands to the vendor
library and returns: the GEMM config, whether a fresh output buffer was
allocated (no accumulator supplied), and the output shape. -/
structure BatchMatmulCall where
  config : MatmulConfig
  freshOut : Bool
  outShape : List Nat
deriving DecidableEq, Repr

/-- `Shape::dims3`, failing unless the rank is exactly 3. -/
def dims3 (dims : List Nat) : Except Err (Nat × Nat × Nat) :=
  match dims with
  | [a, b, c] => .ok (a, b, c)
  | _ => .error .shapeMismatch

/-- `Shape::dims1`, failing unless the rank is exactly 1. -/
def dims1 (dims : List Nat) : Except Err Nat :=
  match dims with
  | [a] => .ok a
  | _ => .error .shapeMismatch

/-- The shared body of `CublasLTBatchMatmul::fwd_f16`/`fwd_bf16`/`fwd_f32`
(api.rs lines 41-145; the three monomorphic copies differ only in element
type): validate `a` as (batch, m, k) and `b` as (batch, n, k), check the
optional bias length, validate or allocate the output buffer, and build the
GEMM config.  `stride()[0]` of a validated rank-3 layout is its head. -/
def fwd_batch_matmul (op : CublasLTBatchMatmul) (aL bL : Layout)
    (biasL : Option Layout) : Except Err BatchMatmulCall := do
  let (batchSize, m, k) ← dims3 aL.dims
  let (_b0, n, _b2) ← dims3 bL.dims
  if _b2 ≠ k then throw .shapeMismatch
  if _b0 ≠ batchSize then throw .shapeMismatch
  let lda := k
  let ldb := k
  let ldc := m
  let outShape := [batchSize, n, m]
  match biasL with
  | some bl => do
    let bm ← dims1 bl.dims
    if bm ≠ m then throw .shapeMismatch
  | none => pure ()
  let (strideC, freshOut) ←
    match op.c with
    | some cL => do
      match cL.contiguousOffsets with
      | some (o1, o2) => do
        if o1 ≠ 0 then throw .precondition
        if o2 ≠ outShape.prod then throw .shapeMismatch
      | none => throw .precondition
      let cd ← dims3 cL.dims
      if cd ≠ (batchSize, n, m) then throw .shapeMismatch
      pure (cL.stride.headD 0, false)
    | none => pure (n * m, true)
  let config : MatmulConfig :=
    { transa := true
      transb := false
      m := m
      n := n
      k := k
      alpha := op.alpha.getD 1
      lda := lda
      ldb := ldb
      beta := op.beta.getD 0
      ldc := ldc
      strideA := aL.stride.headD 0
      strideB := bL.stride.headD 0
      strideC := strideC
      batchSize := batchSize }
  return { config := config, freshOut := freshOut, outShape := outShape }

end BatchMatmul

section ConcreteInstances

/-- A matmul descriptor with an explicit non-zero `beta` and no accumulator
tensor, exercising the `beta` forwarding of `fwd_batch_matmul`. -/
def opBetaEx : CublasLTBatchMatmul := ⟨none, none, none, some 2⟩

/-- The call `fwd_batch_matmul opBetaEx` produces on A = (2,4,8), B = (2,5,8)
with no bias: the caller's beta = 2 reaches the GEMM config unchanged. -/
def fwdBetaEx : BatchMatmulCall :=
  { config :=
      { transa := true
        transb := false
        m := 4
        n := 5
        k := 8
        alpha := 1
        lda := 8
        ldb := 8
        beta := 2
        ldc := 4
        strideA := 32
        strideB := 40
        strideC := 20
        batchSize := 2 }
    freshOut := true
    outShape := [2, 5, 4] }

/-- A matmul descriptor with every optional field absent. -/
def opShapeEx : CublasLTBatchMatmul := ⟨none, none, none, none⟩

/-- The call `fwd_batch_matmul opShapeEx` produces on A = (2,4,8), B = (2,5,8)
with no bias. -/
def fwdShapeEx : BatchMatmulCall :=
  { config :=
      { transa := true
        transb := false
        m := 4
        n := 5
        k := 8
        alpha := 1
        lda := 8
        ldb := 8
        beta := 0
        ldc := 4
        strideA := 32
        strideB := 40
        strideC := 20
        batchSize := 2 }
    freshOut := true
    outShape := [2, 5, 4] }

/-- Rational model of the float `exp` adequate at the only two points the
idempotence counterexample evaluates it: every float format has
`exp 0 = 1` exactly, and `exp (-1) = 0.3679` to four digits (f32:
0.36787945); the value elsewhere is irrelevant to the counterexample. -/
def expF32Model : ℚ → ℚ := fun x => if x = 0 then 1 else 3679 / 10000

end ConcreteInstances

/-! ## Theorems -/

/-- C7: a `rms_norm` call whose rank-1 `alpha` length differs from the last
dimension of `x` fails with a `ShapeMismatch` error, whatever the fused kernel
would have produced -- the kernel is never reached and no result tensor is
produced. -/
theorem rms_norm_mismatch_fails {β : Type} (xsDims : List Nat) (d n : Nat)
    (kernel : Except Err β) (hlast : xsDims.getLast? = some d) (hne : d ≠ n) :
    rms_norm xsDims [n] kernel = .error .shapeMismatch := by
  simp [rms_norm, hlast, hne]

/-- Witness for `rms_norm_mismatch_fails` at x of shape (2,3), alpha of
length 4, and a kernel that would have returned a value. -/
theorem rms_norm_mismatch_fails_witness :
    ([2, 3].getLast? = some 3 ∧ 3 ≠ 4) ∧
      rms_norm [2, 3] [4] (Except.ok (0 : Nat)) = .error .shapeMismatch :=
  ⟨⟨by decide, by decide⟩,
    rms_norm_mismatch_fails [2, 3] 3 4 (Except.ok 0) (by decide) (by decide)⟩

/-- If every mask element is 1, the elementwise multiplication of `dropout`
returns the input unchanged. -/
theorem zipWith_mul_ones {α : Type} [LinearOrderedField α] :
    ∀ (xs ms : List α), ms.length = xs.length → (∀ m ∈ ms, m = 1) →
      List.zipWith (fun x m => x * m) xs ms = xs := by
  intro xs
  induction xs with
  | nil => intro ms _ _; simp
  | cons x xs ih =>
    intro ms hlen hones
    cases ms with
    | nil => simp at hlen
    | cons m ms =>
      have hm : m = 1 := hones m (List.mem_cons_self m ms)
      have hrest : ∀ y ∈ ms, y = (1 : α) := fun y hy => hones y (List.mem_cons_of_mem m hy)
      simp only [List.zipWith]
      rw [hm, mul_one, ih ms (by simpa using hlen) hrest]

/-- C9: `dropout(xs, p)` fails exactly when `p` lies outside `[0, 1)` (so
`p = 1` fails and `p = 0` succeeds), and at `p = 0` the mask is all ones, the
scale is 1, and the input is returned unchanged. -/
theorem dropout_spec {α : Type} [LinearOrderedField α] (xs : List α) (p : α)
    (rand : List α) (hlen : rand.length = xs.length) :
    ((dropout xs p rand).isOk = true ↔ 0 ≤ p ∧ p < 1) ∧
      (p = 0 → (∀ r ∈ rand, 0 ≤ r) → dropout xs p rand = .ok xs) := by
  constructor
  · by_cases h : 0 ≤ p ∧ p < 1 <;> simp [dropout, h, Except.isOk, Except.toBool]
  · intro hp hr
    subst hp
    have hcond : ¬¬((0 : α) ≤ 0 ∧ (0 : α) < 1) := by norm_num
    simp only [dropout, hcond, if_false]
    have hmask : ∀ m ∈ rand.map fun r => (if (0 : α) ≤ r then (1 : α) else 0) * (1 / (1 - 0)),
        m = (1 : α) := by
      intro m hm
      rcases List.mem_map.mp hm with ⟨r, hrm, hmr⟩
      rw [← hmr, if_pos (hr r hrm)]
      norm_num
    rw [zipWith_mul_ones xs _ (by simpa using hlen) hmask]

/-- Witness for `dropout_spec` at `xs = [5, 7]`, `p = 0`,
`rand = [0, 1/2]`. -/
theorem dropout_spec_witness :
    ([(0 : ℚ), 1 / 2].length = [(5 : ℚ), 7].length) ∧
      dropout [(5 : ℚ), 7] 0 [0, 1 / 2] = .ok [5, 7] :=
  ⟨by simp,
    (dropout_spec [(5 : ℚ), 7] 0 [0, 1 / 2] (by simp)).2 rfl (by norm_num)⟩

/-- C2: a GQA call on the full path does NOT fail.  With q of shape
(1, 4, 2, 64), k and v of shape (1, 2, 2, 64) -- query sequence length 2 and
4 query heads over 2 kv heads, a strict multiple -- `Sdpa::metal_fwd` routes
to the full-attention kernel and succeeds, because the eligibility test
compares the last dimensions of q and k (already forced equal by an earlier
check) instead of the head counts; the function's own doc comment says GQA is
not supported on this path. -/
theorem sdpa_full_path_allows_gqa :
    sdpa_metal_fwd [1, 4, 2, 64] [1, 2, 2, 64] [1, 2, 2, 64] .f32 .f32 .f32 =
      .ok (.full, [1, 4, 2, 64]) := by
  decide

/-- C3 counterexample: with no accumulator tensor (`c = none`) but an explicit
`beta = 2`, the GEMM config built by `fwd_batch_matmul` carries `beta = 2`,
not 0 -- the claim that `beta` is "treated as inapplicable (effectively 0)"
is false: the source forwards `self.beta.unwrap_or(0.0)` unchanged. -/
theorem fused_batch_matmul_beta_forwarded_cex :
    opBetaEx.c = none ∧ opBetaEx.beta = some 2 ∧
      Except.map (fun r => r.config.beta)
          (fwd_batch_matmul opBetaEx (Layout.ofDims [2, 4, 8])
            (Layout.ofDims [2, 5, 8]) none) = .ok 2 ∧ (2 : ℚ) ≠ 0 :=
  ⟨rfl, rfl, by decide, by norm_num⟩

/-- C3 (amended): when the optional accumulator `out` is absent, a fresh
output buffer is allocated (`freshOut`, with batch stride `n * m`) and the
caller's `beta` is forwarded unchanged into the GEMM configuration -- it
defaults to 0 only when the caller did not pass one; a non-zero `beta` is not
overridden. -/
theorem fwd_batch_matmul_no_accum_beta (op : CublasLTBatchMatmul) (aL bL : Layout)
    (biasL : Option Layout) (r : BatchMatmulCall)
    (hc : op.c = none) (hr : fwd_batch_matmul op aL bL biasL = .ok r) :
    r.config.beta = op.beta.getD 0 ∧ r.freshOut = true ∧
      r.config.strideC = r.config.n * r.config.m := by
  unfold fwd_batch_matmul at hr
  rw [hc] at hr
  simp only [bind, Except.bind, pure, Except.pure] at hr
  repeat' split at hr
  all_goals cases hr
  all_goals simp

/-- Witness for `fwd_batch_matmul_no_accum_beta` at the concrete descriptor
`opBetaEx` on A = (2,4,8), B = (2,5,8). -/
theorem fwd_batch_matmul_no_accum_beta_witness :
    fwdBetaEx.config.beta = opBetaEx.beta.getD 0 ∧ fwdBetaEx.freshOut = true ∧
      fwdBetaEx.config.strideC = fwdBetaEx.config.n * fwdBetaEx.config.m :=
  fwd_batch_matmul_no_accum_beta opBetaEx (Layout.ofDims [2, 4, 8])
    (Layout.ofDims [2, 5, 8]) none fwdBetaEx rfl (by decide)

/-- C4: whenever `fwd_batch_matmul` succeeds on A of shape (batch, m, k) and
B of shape (b0, n, b2), the output shape is (batch, n, m) -- the transposed
naming of the TN convention. -/
theorem fwd_batch_matmul_out_shape (op : CublasLTBatchMatmul) (aL bL : Layout)
    (biasL : Option Layout) (batch m k b0 n b2 : Nat) (r : BatchMatmulCall)
    (ha : aL.dims = [batch, m, k]) (hb : bL.dims = [b0, n, b2])
    (hr : fwd_batch_matmul op aL bL biasL = .ok r) : r.outShape = [batch, n, m] := by
  unfold fwd_batch_matmul at hr
  rw [ha, hb] at hr
  simp only [dims3, bind, Except.bind, pure, Except.pure] at hr
  repeat' split at hr
  all_goals cases hr
  all_goals simp

/-- Witness for `fwd_batch_matmul_out_shape`: A of shape (2,4,8) with B of
shape (2,5,8) succeeds and yields output shape (2,5,4). -/
theorem fwd_batch_matmul_out_shape_witness :
    fwd_batch_matmul opShapeEx (Layout.ofDims [2, 4, 8])
        (Layout.ofDims [2, 5, 8]) none = .ok fwdShapeEx ∧
      fwdShapeEx.outShape = [2, 5, 4] :=
  ⟨by decide,
    fwd_batch_matmul_out_shape opShapeEx (Layout.ofDims [2, 4, 8])
      (Layout.ofDims [2, 5, 8]) none 2 4 8 2 5 8 fwdShapeEx rfl rfl (by decide)⟩

/-- C8: on a non-contiguous layout (with a supported dtype and a non-empty
stride, i.e. a well-formed tensor), the fused softmax-last-dim fails with the
contiguity precondition error in every variant before computing anything: the
allocating CPU kernel, the in-place CPU kernel, and the CUDA and Metal
validation gates. -/
theorem softmax_last_dim_rejects_non_contiguous {α : Type} [LinearOrderedField α]
    (e : α → α) (s : CpuStorage α) (l : Layout)
    (hdt : s.dtype = .f32 ∨ s.dtype = .f16 ∨ s.dtype = .bf16)
    (hnc : l.isContiguous = false) (hst : l.stride ≠ []) :
    softmax_last_dim_cpu_fwd e s l = .error .precondition ∧
      inplace_softmax_last_dim_cpu_fwd e s l = .error .precondition ∧
      softmax_last_dim_cuda_guard s.dtype l = .error .precondition ∧
      softmax_last_dim_metal_guard s.dtype l = .error .precondition := by
  have hf : s.dtype.isFloat = true := by
    rcases hdt with h | h | h <;> rw [h] <;> rfl
  have hco : l.contiguousOffsets = none := by
    simp [Layout.contiguousOffsets, hnc]
  obtain ⟨sl, hsl⟩ : ∃ x, l.stride.getLast? = some x := by
    cases hx : l.stride.getLast? with
    | none => exact absurd (List.getLast?_eq_none_iff.mp hx) hst
    | some x => exact ⟨x, rfl⟩
  refine ⟨?_, ?_, ?_, ?_⟩
  · simp [softmax_last_dim_cpu_fwd, hf, hco]
  · simp [inplace_softmax_last_dim_cpu_fwd, hf, hco]
  · simp [softmax_last_dim_cuda_guard, hf, hco]
  · simp [softmax_last_dim_metal_guard, hdt, hsl, hnc]

/-- Witness for `softmax_last_dim_rejects_non_contiguous` at the transposed
(column-major) 2x2 layout with strides [1, 2]. -/
theorem softmax_last_dim_rejects_non_contiguous_witness :
    ((Layout.mk [2, 2] [1, 2] 0).isContiguous = false ∧ [1, 2] ≠ ([] : List Nat)) ∧
      (softmax_last_dim_cpu_fwd (fun x => x) (⟨.f32, [(1 : ℚ), 2, 3, 4]⟩)
          (Layout.mk [2, 2] [1, 2] 0) = .error .precondition ∧
        inplace_softmax_last_dim_cpu_fwd (fun x => x) (⟨.f32, [(1 : ℚ), 2, 3, 4]⟩)
          (Layout.mk [2, 2] [1, 2] 0) = .error .precondition ∧
        softmax_last_dim_cuda_guard .f32 (Layout.mk [2, 2] [1, 2] 0) = .error .precondition ∧
        softmax_last_dim_metal_guard .f32 (Layout.mk [2, 2] [1, 2] 0) = .error .precondition) :=
  ⟨⟨by decide, by decide⟩,
    softmax_last_dim_rejects_non_contiguous (fun x => x)
      (⟨.f32, [(1 : ℚ), 2, 3, 4]⟩) (Layout.mk [2, 2] [1, 2] 0)
      (Or.inl rfl) (by decide) (by decide)⟩

/-- The generic softmax composition on the row decomposition coincides with
mapping the one-pass fused row kernel over the rows. -/
theorem softmax_generic_last_eq_map {α : Type} [LinearOrderedField α] (e : α → α)
    (rows : List (List α)) :
    softmax_generic_last e rows = rows.map (softmax_chunk e) := by
  induction rows with
  | nil => rfl
  | cons r rows ih =>
    simp only [softmax_generic_last, max_keepdim_last, broadcast_sub_last, exp_last,
      sum_keepdim_last, broadcast_div_last, List.map_cons, List.zipWith_cons_cons] at ih ⊢
    rw [ih]
    cases r with
    | nil => simp [softmax_chunk]
    | cons a t =>
      simp [softmax_chunk, List.map_map, Function.comp_def]

/-- C1: on every contiguous input of a supported float dtype, the fused
`softmax_last_dim` CPU kernel returns exactly the generic softmax composition
`exp(x - max(x, last)) / sum(exp(x - max(x, last)), last)` applied over the
last dimension -- over exact (real-like) arithmetic with an arbitrary
exponential model `e`, the two agree on the nose. -/
theorem softmax_last_dim_matches_generic {α : Type} [LinearOrderedField α] (e : α → α)
    (s : CpuStorage α) (l : Layout) (o1 o2 dimM1 : Nat)
    (hdt : s.dtype.isFloat = true)
    (hco : l.contiguousOffsets = some (o1, o2))
    (hlen : o2 ≤ s.data.length)
    (hlast : l.dims.getLast? = some dimM1) (hk : dimM1 ≠ 0) :
    softmax_last_dim_cpu_fwd e s l =
      .ok (⟨s.dtype,
        (softmax_generic_last e
          (chunks dimM1 ((s.data.drop o1).take (o2 - o1)))).flatten⟩, l.dims) := by
  have hgt : ¬o2 > s.data.length := not_lt.mpr hlen
  simp [softmax_last_dim_cpu_fwd, hdt, hco, hgt, hlast, hk, softmax_generic_last_eq_map]

/-- Witness for `softmax_last_dim_matches_generic` on the contiguous 2x2
tensor [1, 2, 3, 4]. -/
theorem softmax_last_dim_matches_generic_witness :
    softmax_last_dim_cpu_fwd (fun x => x) (⟨.f32, [(1 : ℚ), 2, 3, 4]⟩) (Layout.ofDims [2, 2]) =
      .ok (⟨.f32,
        (softmax_generic_last (fun x => x)
          (chunks 2 (([(1 : ℚ), 2, 3, 4].drop 0).take (4 - 0)))).flatten⟩, [2, 2]) :=
  softmax_last_dim_matches_generic (fun x => x) (⟨.f32, [(1 : ℚ), 2, 3, 4]⟩)
    (Layout.ofDims [2, 2]) 0 4 2 rfl (by decide) (by decide) (by decide) (by decide)

/-- The chunk maximum of a constant chunk is that constant. -/
theorem chunkMax_replicate {α : Type} [LinearOrderedField α] (m : Nat) (c : α) :
    chunkMax c (List.replicate m c) = c := by
  induction m with
  | zero => rfl
  | succ m ih =>
    simp only [chunkMax, List.replicate, List.foldl_cons, max_self] at ih ⊢
    exact ih

/-- Folding addition over a constant buffer sums it. -/
theorem chunkSum_replicate {α : Type} [LinearOrderedField α] (m : Nat) (x a : α) :
    List.foldl (fun u v => u + v) a (List.replicate m x) = a + m * x := by
  induction m generalizing a with
  | zero => simp
  | succ m ih =>
    simp only [List.replicate, List.foldl_cons]
    rw [ih]
    push_cast
    ring

/-- The fused softmax row kernel fixes the uniform probability row: on a
constant row of value 1/n it returns the row unchanged, for every exponential
model with `e 0 ≠ 0` (float `exp` has `e 0 = 1` exactly). -/
theorem softmax_chunk_replicate {α : Type} [LinearOrderedField α] (e : α → α)
    (n : Nat) (hn : n ≠ 0) (he : e 0 ≠ 0) :
    softmax_chunk e (List.replicate n ((n : α)⁻¹)) = List.replicate n ((n : α)⁻¹) := by
  obtain ⟨m, rfl⟩ : ∃ m, n = m + 1 := ⟨n - 1, by omega⟩
  have hnc : ((m : α) + 1) ≠ 0 := by positivity
  simp only [List.replicate, softmax_chunk, chunkMax_replicate, sub_self, List.map_cons,
    List.map_replicate, chunkSum]
  rw [List.foldl_cons, chunkSum_replicate]
  have : (0 : α) + e 0 + m * e 0 = ((m : α) + 1) * e 0 := by ring
  rw [this]
  have hval : e 0 / (((m : α) + 1) * e 0) = ((m : α) + 1)⁻¹ := by
    rw [mul_comm, div_mul_eq_div_div, div_self he, one_div]
  simp only [hval, List.map_cons, List.map_replicate]
  congr 1 <;> push_cast <;> ring_nf

/-- Chunking the empty buffer yields no chunks, whatever the fuel. -/
theorem chunksGo_nil {α : Type} [LinearOrderedField α] (k fuel : Nat) :
    chunksGo k fuel ([] : List α) = [] := by
  cases fuel <;> rfl

/-- A buffer of exactly one row is one chunk. -/
theorem chunks_replicate_self {α : Type} [LinearOrderedField α] (n : Nat) (hn : n ≠ 0) (c : α) :
    chunks n (List.replicate n c) = [List.replicate n c] := by
  obtain ⟨m, rfl⟩ : ∃ m, n = m + 1 := ⟨n - 1, by omega⟩
  rw [chunks, List.length_replicate, List.replicate_succ, chunksGo, ← List.replicate_succ,
    List.take_replicate, List.drop_replicate]
  simp [chunksGo_nil]

/-- C6 (amended): `softmax_last_dim` reproduces an already-normalized tensor
exactly when its rows are uniform: the constant row of value 1/n is a fixed
point of the fused CPU kernel, for every exponential model with `e 0 ≠ 0`.
General normalized rows are not fixed points (see the counterexample). -/
theorem softmax_last_dim_fixes_uniform_rows {α : Type} [LinearOrderedField α]
    (n : Nat) (hn : n ≠ 0) (e : α → α) (he : e 0 ≠ 0) :
    softmax_last_dim_cpu_fwd e ⟨.f32, List.replicate n ((n : α)⁻¹)⟩ (Layout.ofDims [n]) =
      .ok (⟨.f32, List.replicate n ((n : α)⁻¹)⟩, [n]) := by
  have hco : (Layout.ofDims [n]).contiguousOffsets = some (0, n) := by
    simp [Layout.ofDims, Layout.contiguousOffsets, Layout.isContiguous, rowMajorStride,
      Layout.elemCount]
  have hlast : (Layout.ofDims [n]).dims.getLast? = some n := rfl
  have hdims : (Layout.ofDims [n]).dims = [n] := rfl
  simp [softmax_last_dim_cpu_fwd, hco, hlast, hdims, hn, DType.isFloat, List.take_replicate,
    chunks_replicate_self n hn, softmax_chunk_replicate e n hn he]

/-- Witness for `softmax_last_dim_fixes_uniform_rows` at the uniform row
[1/2, 1/2]. -/
theorem softmax_last_dim_fixes_uniform_rows_witness :
    softmax_last_dim_cpu_fwd (fun _ => 1) (⟨.f32, List.replicate 2 ((2 : ℚ)⁻¹)⟩)
        (Layout.ofDims [2]) =
      .ok (⟨.f32, List.replicate 2 ((2 : ℚ)⁻¹)⟩, [2]) :=
  softmax_last_dim_fixes_uniform_rows 2 (by decide) (fun _ => 1) (by norm_num)

/-- C6 counterexample: the normalized row [1, 0] (non-negative entries summing
to 1) is NOT reproduced by `softmax_last_dim`: the fused kernel maps it to
[10000/13679, 3679/13679], about [0.731, 0.269], whose first entry is more
than 0.01 away from 1 -- far beyond any 1e-4 tolerance.  `expF32Model` agrees
with float `exp` at the two evaluated points 0 and -1. -/
theorem softmax_last_dim_not_idempotent_cex :
    ((0 : ℚ) ≤ 1 ∧ (0 : ℚ) ≤ 0 ∧ (1 : ℚ) + 0 = 1) ∧
      softmax_last_dim_cpu_fwd expF32Model (⟨.f32, [(1 : ℚ), 0]⟩) (Layout.ofDims [2]) =
        .ok (⟨.f32, [10000 / 13679, 3679 / 13679]⟩, [2]) ∧
      (1 : ℚ) - 10000 / 13679 > 1 / 100 := by
  refine ⟨by norm_num, ?_, by norm_num⟩
  have hco : (Layout.ofDims [2]).contiguousOffsets = some (0, 2) := by
    simp [Layout.ofDims, Layout.contiguousOffsets, Layout.isContiguous, rowMajorStride,
      Layout.elemCount]
  have hlast : (Layout.ofDims [2]).dims.getLast? = some 2 := rfl
  have hdims : (Layout.ofDims [2]).dims = [2] := rfl
  simp only [softmax_last_dim_cpu_fwd, hco, hlast, hdims, DType.isFloat]
  norm_num [chunks, chunksGo, softmax_chunk, chunkMax, chunkSum, expF32Model]

/-- The fused row kernel preserves row length. -/
theorem softmax_chunk_length {α : Type} [LinearOrderedField α] (e : α → α) (r : List α) :
    (softmax_chunk e r).length = r.length := by
  cases r <;> simp [softmax_chunk]

/-- Processing every chunk with the row kernel and flattening preserves the
buffer length. -/
theorem chunksGo_flatten_length {α : Type} [LinearOrderedField α] (e : α → α) (k : Nat)
    (hk : k ≠ 0) :
    ∀ (fuel : Nat) (l : List α), l.length ≤ fuel →
      (((chunksGo k fuel l).map (softmax_chunk e)).flatten).length = l.length := by
  intro fuel
  induction fuel with
  | zero =>
    intro l hl
    rw [List.length_eq_zero.mp (Nat.le_zero.mp hl)]
    rfl
  | succ fuel ih =>
    intro l hl
    cases l with
    | nil => rfl
    | cons a t =>
      have hrec : (List.drop k (a :: t)).length ≤ fuel := by
        simp only [List.length_drop, List.length_cons] at hl ⊢
        omega
      simp only [chunksGo, List.map_cons, List.flatten_cons, List.length_append,
        softmax_chunk_length, ih _ hrec, List.length_take, List.length_drop,
        List.length_cons]
      omega

/-- C10: the in-place CPU softmax-last-dim only mutates the buffer inside the
layout's contiguous offset range `[o1, o2)`: the call succeeds, the dtype and
the buffer length are unchanged, and every element outside the range is
exactly the original one. -/
theorem inplace_softmax_last_dim_frame {α : Type} [LinearOrderedField α] (e : α → α)
    (s : CpuStorage α) (l : Layout) (o1 o2 dimM1 : Nat)
    (hdt : s.dtype.isFloat = true)
    (hco : l.contiguousOffsets = some (o1, o2))
    (hlen : o2 ≤ s.data.length)
    (hlast : l.dims.getLast? = some dimM1) (hk : dimM1 ≠ 0) :
    ∃ s2 : CpuStorage α,
      inplace_softmax_last_dim_cpu_fwd e s l = .ok s2 ∧
        s2.dtype = s.dtype ∧ s2.data.length = s.data.length ∧
        (∀ i : Nat, i < o1 ∨ o2 ≤ i → s2.data[i]? = s.data[i]?) := by
  have ho12 : o1 ≤ o2 := by
    unfold Layout.contiguousOffsets at hco
    split at hco
    · rw [Option.some_inj, Prod.mk.injEq] at hco
      omega
    · exact absurd hco (by simp)
  have hgt : ¬o2 > s.data.length := not_lt.mpr hlen
  set mid := (s.data.drop o1).take (o2 - o1) with hmid
  set processed := ((chunks dimM1 mid).map (softmax_chunk e)).flatten with hproc
  have hmidlen : mid.length = o2 - o1 := by
    rw [hmid]
    simp only [List.length_take, List.length_drop]
    omega
  have hproclen : processed.length = o2 - o1 := by
    rw [hproc, chunks, chunksGo_flatten_length e dimM1 hk mid.length mid le_rfl, hmidlen]
  have htakelen : (s.data.take o1).length = o1 := by
    simp only [List.length_take]
    omega
  refine ⟨⟨s.dtype, s.data.take o1 ++ processed ++ s.data.drop o2⟩, ?_, rfl, ?_, ?_⟩
  · simp [inplace_softmax_last_dim_cpu_fwd, hdt, hco, hgt, hlast, hk]
  · simp only [List.length_append, htakelen, hproclen, List.length_drop]
    omega
  · intro i hi
    rcases hi with hi | hi
    · rw [List.append_assoc, List.getElem?_append]
      rw [if_pos (by omega : i < (s.data.take o1).length)]
      rw [List.getElem?_take, if_pos hi]
    · rw [List.getElem?_append_right (by simp only [List.length_append, htakelen, hproclen]; omega)]
      rw [List.getElem?_drop]
      congr 1
      simp only [List.length_append, htakelen, hproclen]
      omega

/-- Witness for `inplace_softmax_last_dim_frame`: a 2x2 view at offset 1 of a
6-element buffer; the sentinel elements 9 at indices 0 and 5 survive. -/
theorem inplace_softmax_last_dim_frame_witness :
    ∃ s2 : CpuStorage ℚ,
      inplace_softmax_last_dim_cpu_fwd (fun x => x) (⟨.f32, [(9 : ℚ), 1, 2, 3, 4, 9]⟩)
          (Layout.mk [2, 2] [2, 1] 1) = .ok s2 ∧
        s2.dtype = .f32 ∧ s2.data.length = 6 ∧
        (∀ i : Nat, i < 1 ∨ 5 ≤ i → s2.data[i]? = [(9 : ℚ), 1, 2, 3, 4, 9][i]?) :=
  inplace_softmax_last_dim_frame (fun x => x) (⟨.f32, [(9 : ℚ), 1, 2, 3, 4, 9]⟩)
    (Layout.mk [2, 2] [2, 1] 1) 1 5 2 rfl (by decide) (by decide) (by decide) (by decide)

/-- A list of length 4 is a literal 4-element list. -/
theorem exists_len_four {γ : Type} (l : List γ) (h : l.length = 4) :
    ∃ a b c d, l = [a, b, c, d] := by
  rcases l with _ | ⟨a, _ | ⟨b, _ | ⟨c, _ | ⟨d, _ | ⟨e, t⟩⟩⟩⟩⟩ <;> simp_all

/-- A list of length 2 is a literal 2-element list. -/
theorem exists_len_two {γ : Type} (l : List γ) (h : l.length = 2) :
    ∃ a b, l = [a, b] := by
  rcases l with _ | ⟨a, _ | ⟨b, _ | ⟨c, t⟩⟩⟩ <;> simp_all

/-- C5 counterexample: on a non-Metal backend, `attn_softmax_last_dim` with a
rank-3 input (2,3,4) and a rank-2 mask (3,4) whose dimensions match the
trailing ones succeeds -- it decomposes into broadcast-add, scale and fused
softmax, and no rank check exists on that path; the claim that rank ≠ 4 fails
with `ShapeMismatch` on every backend is false. -/
theorem attn_softmax_cpu_rank3_succeeds :
    (Layout.ofDims [2, 3, 4]).rank ≠ 4 ∧
      attn_softmax_last_dim false (Layout.ofDims [2, 3, 4]) (Layout.ofDims [3, 4]) .f32 =
        .ok [2, 3, 4] :=
  ⟨by decide, by decide⟩

/-- C5 (amended): on the METAL backend, with contiguous inputs of a supported
dtype, `attn_softmax_last_dim` fails with a `ShapeMismatch` error whenever the
input rank is not 4, the mask rank is not 2, or the trailing two dimensions of
the mask differ from the input's; on other backends the call decomposes into
broadcast-add, scale and the fused softmax and performs no such checks. -/
theorem attn_softmax_metal_shape_checks (xsL maskL : Layout) (dt : DType)
    (hdt : dt = .f32 ∨ dt = .f16 ∨ dt = .bf16)
    (hcx : xsL.isContiguous = true) (hcm : maskL.isContiguous = true)
    (hbad : xsL.dims.length ≠ 4 ∨ maskL.dims.length ≠ 2 ∨
      lastDim maskL.dims ≠ lastDim xsL.dims ∨ sndLastDim maskL.dims ≠ sndLastDim xsL.dims) :
    attn_softmax_last_dim true xsL maskL dt = .error .shapeMismatch := by
  have hdtc : ¬¬(dt = .f32 ∨ dt = .f16 ∨ dt = .bf16) := not_not_intro hdt
  by_cases h4 : xsL.dims.length = 4
  · by_cases h2 : maskL.dims.length = 2
    · have hmm : lastDim maskL.dims ≠ lastDim xsL.dims ∨
          sndLastDim maskL.dims ≠ sndLastDim xsL.dims := by
        rcases hbad with h | h | h | h
        · exact absurd h4 h
        · exact absurd h2 h
        · exact Or.inl h
        · exact Or.inr h
      obtain ⟨x1, x2, x3, x4, hx⟩ := exists_len_four xsL.dims h4
      obtain ⟨m1, m2, hm⟩ := exists_len_two maskL.dims h2
      rw [hx, hm] at hmm
      simp only [lastDim, sndLastDim] at hmm
      simp [attn_softmax_last_dim, hdtc, hcx, hcm, hx, hm, listDimMinus,
        bind, Except.bind, pure, Except.pure, lastDim, sndLastDim] at hmm ⊢
      tauto
    · simp [attn_softmax_last_dim, hdtc, hcx, hcm, h4, h2, bind, Except.bind, pure, Except.pure]
  · simp [attn_softmax_last_dim, hdtc, hcx, hcm, h4, bind, Except.bind, pure, Except.pure]

/-- Witness for `attn_softmax_metal_shape_checks` at a rank-2 input (2,3) with
a rank-2 mask (1,2) on the Metal path. -/
theorem attn_softmax_metal_shape_checks_witness :
    ((DType.f32 = DType.f32 ∨ DType.f32 = DType.f16 ∨ DType.f32 = DType.bf16) ∧
      (Layout.ofDims [2, 3]).isContiguous = true ∧
      (Layout.ofDims [1, 2]).isContiguous = true ∧
      (Layout.ofDims [2, 3]).dims.length ≠ 4) ∧
      attn_softmax_last_dim true (Layout.ofDims [2, 3]) (Layout.ofDims [1, 2]) .f32 =
        .error .shapeMismatch :=
  ⟨⟨Or.inl rfl, by decide, by decide, by decide⟩,
    attn_softmax_metal_shape_checks (Layout.ofDims [2, 3]) (Layout.ofDims [1, 2]) .f32
      (Or.inl rfl) (by decide) (by decide) (Or.inl (by decide))⟩
